import Mathlib

/-!
# Verification of the apito plugin SDK's type/argument model

A shallow embedding, in Lean 4, of the dynamic-value, schema-serialization
and argument-coercion layer of the `sdk` Go package (files `sdk.go` and
`helpers.go`), together with theorems settling the specification's claims
about that layer.

Conventions of the embedding:
* Go's `interface{}` values flowing through this package are modelled by the
  inductive type `GoVal`.  `vMap` models `map[string]interface{}` (as an
  association list; Go maps are unordered with unique keys), `vArr` models
  `[]interface{}`, `vStruct` models any other Go struct value, and `vField` /
  `vTypeDef` model values of the package's own struct types `GraphQLField`
  and `GraphQLTypeDefinition` (which are structs to `reflect`).
* Go's `float64` is modelled by `ℚ` (exact values; the claims concern
  conversion semantics, not rounding).
* Go `int` and `int64` are both modelled by `ℤ` (the SDK targets 64-bit).
* Fallible Go operations are modelled with `Option`.
-/

namespace ApitoSDK

mutual

/-- Model of a dynamic Go value (`interface{}`) as used by the SDK. -/
inductive GoVal : Type where
  | vNull : GoVal
  | vBool : Bool → GoVal
  | vInt : Int → GoVal
  | vFloat : Rat → GoVal
  | vStr : String → GoVal
  | vArr : List GoVal → GoVal
  | vMap : List (String × GoVal) → GoVal
  | vStruct : List (String × GoVal) → GoVal
  | vField : GraphQLField → GoVal
  | vTypeDef : GraphQLTypeDefinition → GoVal

/-- Model of the `Type` field of `GraphQLField` (`interface{}` in Go):
it is either a legacy string, a structured `GraphQLTypeDefinition`, or some
other value, which `serializeType` renders via `fmt.Sprintf("%v", ...)`;
the pre-rendered text of that default case is carried by `fOther`. -/
inductive FieldType : Type where
  | fStr : String → FieldType
  | fTypeDef : GraphQLTypeDefinition → FieldType
  | fOther : String → FieldType

/-- Model of `GraphQLField` (sdk.go): Type, Description, Args, Resolve. -/
inductive GraphQLField : Type where
  | mk : FieldType → String → List (String × GoVal) → String → GraphQLField

/-- Model of `GraphQLTypeDefinition` (sdk.go): Kind, Name, ScalarType,
OfType (a nil-able pointer, hence `Option`), Fields. -/
inductive GraphQLTypeDefinition : Type where
  | mk : String → String → String → Option GraphQLTypeDefinition →
      List (String × GoVal) → GraphQLTypeDefinition

end

namespace GraphQLField

/-- The `Type` field of a `GraphQLField`. -/
def fieldType : GraphQLField → FieldType
  | .mk t _ _ _ => t

/-- The `Description` field of a `GraphQLField`. -/
def description : GraphQLField → String
  | .mk _ d _ _ => d

/-- The `Args` field of a `GraphQLField`. -/
def args : GraphQLField → List (String × GoVal)
  | .mk _ _ a _ => a

/-- The `Resolve` field of a `GraphQLField`. -/
def resolve : GraphQLField → String
  | .mk _ _ _ r => r

end GraphQLField

namespace GraphQLTypeDefinition

/-- The `Kind` field. -/
def kind : GraphQLTypeDefinition → String
  | .mk k _ _ _ _ => k

/-- The `Name` field. -/
def name : GraphQLTypeDefinition → String
  | .mk _ n _ _ _ => n

/-- The `ScalarType` field. -/
def scalarType : GraphQLTypeDefinition → String
  | .mk _ _ s _ _ => s

/-- The `OfType` field. -/
def ofType : GraphQLTypeDefinition → Option GraphQLTypeDefinition
  | .mk _ _ _ o _ => o

/-- The `Fields` field. -/
def fields : GraphQLTypeDefinition → List (String × GoVal)
  | .mk _ _ _ _ f => f

end GraphQLTypeDefinition

/-- Go map read `m[k]` (comma-ok form): the value stored under `k`, if any.
Association lists model Go maps; keys are unique in any list produced by
actual Go map iteration. -/
def goLookup {α : Type _} : List (String × α) → String → Option α
  | [], _ => none
  | (k, v) :: rest, key => if k = key then some v else goLookup rest key

/-- Go map write `m[k] = v`: overwrites any existing entry for `k`. -/
def goInsert {α : Type _} (m : List (String × α)) (k : String) (v : α) :
    List (String × α) :=
  (k, v) :: m.filter (fun e => e.1 ≠ k)

/-- The first-element classification inside `isComplexArrayData` (sdk.go):
the type switch recognizes `map[string]interface{}` and `[]interface{}`,
and the default branch recognizes any struct via `reflect.Struct`
(`GraphQLField` and `GraphQLTypeDefinition` are structs). -/
def headIsComplex : GoVal → Bool
  | .vMap _ => true
  | .vArr _ => true
  | .vStruct _ => true
  | .vField _ => true
  | .vTypeDef _ => true
  | _ => false

mutual

/-- `isComplexArrayData` (sdk.go): a slice/array is complex when non-empty
with a complex first element; a map is complex when some value is
recursively complex; everything else is simple. -/
def isComplexArrayData : GoVal → Bool
  | .vArr [] => false
  | .vArr (h :: _) => headIsComplex h
  | .vMap entries => anyEntryComplex entries
  | _ => false

/-- The `for _, key := range val.MapKeys()` loop of `isComplexArrayData`. -/
def anyEntryComplex : List (String × GoVal) → Bool
  | [] => false
  | (_, v) :: rest => isComplexArrayData v || anyEntryComplex rest

end

/-- Which wire encoding `Execute` (sdk.go) picks for a handler result. -/
inductive ResultEncoding : Type where
  | jsonBytes : ResultEncoding
  | structpb : ResultEncoding
deriving DecidableEq

/-- The result-serialization branch of `Execute` (sdk.go): complex results
go through `serializeComplexData` (JSON bytes), simple results through
`structpb.NewStruct`. -/
def executeResultEncoding (result : GoVal) : ResultEncoding :=
  if isComplexArrayData result then .jsonBytes else .structpb

/-- Models `strconv.Atoi` from the Go standard library (called by
`parseInt` in helpers.go): optional sign, one or more base-10 digits,
value restricted to the 64-bit `int` range; `none` models a non-nil error. -/
def goAtoi (s : String) : Option Int :=
  let core : Int → List Char → Option Int := fun sign digits =>
    if digits = [] ∨ ¬ digits.all Char.isDigit then none
    else
      let n : Nat := digits.foldl (fun a c => a * 10 + (c.toNat - 48)) 0
      let v : Int := sign * (n : Int)
      if -(2 ^ 63) ≤ v ∧ v < 2 ^ 63 then some v else none
  match s.data with
  | '+' :: rest => core 1 rest
  | '-' :: rest => core (-1) rest
  | ds => core 1 ds

/-- Go's float-to-int conversion `int(f)`: truncation toward zero. -/
def ratTruncToInt (q : Rat) : Int :=
  if 0 ≤ q then ⌊q⌋ else ⌈q⌉

/-- `parseInt` (helpers.go): native `int` and `int64` kept (both are `vInt`
here), `float64` truncated toward zero, strings through `strconv.Atoi`
(errors yield the fall-through 0), everything else 0. -/
def parseInt : GoVal → Int
  | .vInt n => n
  | .vFloat q => ratTruncToInt q
  | .vStr s => (goAtoi s).getD 0
  | _ => 0

/-- `parseBoolean` (helpers.go): only a native bool is accepted. -/
def parseBoolean : GoVal → Bool
  | .vBool b => b
  | _ => false

/-- `parseString` (helpers.go): nil yields "", strings kept, other values
rendered via `fmt.Sprintf("%v", ...)`, abstracted by `goFormat`. -/
def goFormat : GoVal → String
  | .vBool b => if b then "true" else "false"
  | .vInt n => toString n
  | _ => ""

/-- `parseString` (helpers.go). -/
def parseString : GoVal → String
  | .vNull => ""
  | .vStr s => s
  | v => goFormat v

/-- Models `strconv.ParseFloat` (called by `parseFloat` in helpers.go):
`none` models a non-nil error.  Only integer-shaped strings are given a
value here; the claims never exercise fractional literals. -/
def goParseFloat (s : String) : Option Rat :=
  (goAtoi s).map (fun n => (n : Rat))

/-- `parseFloat` (helpers.go). -/
def parseFloat : GoVal → Rat
  | .vFloat q => q
  | .vInt n => (n : Rat)
  | .vStr s => (goParseFloat s).getD 0
  | _ => 0

/-- Models `strings.ToLower` (ASCII case mapping suffices here). -/
def goToLower (s : String) : String :=
  String.mk (s.data.map Char.toLower)

/-- The lowercased string test of `GetQueryParamBool` (helpers.go):
`str == "true" || str == "1" || str == "yes"` after `strings.ToLower`. -/
def boolStringTest (s : String) : Bool :=
  let t := goToLower s
  t = "true" || t = "1" || t = "yes"

/-- `GetQueryParamBool` (helpers.go): try the `query_`-prefixed key (bool
kept, string parsed leniently, other types fall through), then the bare
key the same way, then the variadic default, then `false`. -/
def GetQueryParamBool (argsMap : List (String × GoVal)) (paramName : String)
    (defaultValue : List Bool) : Bool :=
  match goLookup argsMap ("query_" ++ paramName) with
  | some (.vBool b) => b
  | some (.vStr s) => boolStringTest s
  | _ =>
    match goLookup argsMap paramName with
    | some (.vBool b) => b
    | some (.vStr s) => boolStringTest s
    | _ => defaultValue.headD false

/-- `GetContextString` (helpers.go): read `args["context_" + key]`; a
string value is returned, anything else falls to the variadic default,
then `""`. -/
def GetContextString (argsMap : List (String × GoVal)) (key : String)
    (defaultValue : List String) : String :=
  match goLookup argsMap ("context_" ++ key) with
  | some (.vStr s) => s
  | _ => defaultValue.headD ""

/-- A Go `context.Context` value chain, as built by repeated
`context.WithValue`: later entries shadow earlier ones, so lookup scans
the most recently added pair first. -/
def CtxChain : Type := List (String × GoVal)

/-- `ctx.Value(key)` on the modelled chain. -/
def ctxValue (ctx : CtxChain) (key : String) : Option GoVal :=
  goLookup ctx key

/-- `GetContextFromContext` (helpers.go): `ctx.Value(key)`; a string value
is returned, anything else falls to the variadic default, then `""`. -/
def GetContextFromContext (ctx : CtxChain) (key : String)
    (defaultValue : List String) : String :=
  match ctxValue ctx key with
  | some (.vStr s) => s
  | _ => defaultValue.headD ""

/-- The context-merging loop of `Execute` (sdk.go): each context pair is
written into `args` under `"context_" + key`. -/
def mergeContextIntoArgs (argsMap contextData : List (String × GoVal)) :
    List (String × GoVal) :=
  contextData.foldl (fun a e => goInsert a ("context_" ++ e.1) e.2) argsMap

/-- The context-injection loop of `Execute` (sdk.go): each context pair is
added to the Go context via `context.WithValue` under the bare key. -/
def injectContext (ctx : CtxChain) (contextData : List (String × GoVal)) :
    CtxChain :=
  contextData.foldl (fun c e => (e.1, e.2) :: c) ctx

mutual

/-- `serializeValue` (sdk.go): maps and arrays are serialized recursively,
`GraphQLField` / `GraphQLTypeDefinition` values through their dedicated
serializers, primitives as-is. -/
def serializeValue : GoVal → GoVal
  | .vMap m => .vMap (serializeArgs m)
  | .vArr xs => .vArr (serializeValList xs)
  | .vField f => .vMap (serializeGraphQLField f)
  | .vTypeDef t => serializeTypeDefinition t
  | v => v

/-- The `[]interface{}` loop of `serializeValue` (sdk.go). -/
def serializeValList : List GoVal → List GoVal
  | [] => []
  | x :: xs => serializeValue x :: serializeValList xs

/-- `serializeArgs` (sdk.go): serialize every value of the map. -/
def serializeArgs : List (String × GoVal) → List (String × GoVal)
  | [] => []
  | (k, v) :: rest => (k, serializeValue v) :: serializeArgs rest

/-- `serializeGraphQLField` (sdk.go): `{type, description, resolve}` plus
`args` when `len(field.Args) > 0`. -/
def serializeGraphQLField : GraphQLField → List (String × GoVal)
  | .mk t d a r =>
    [("type", serializeType t), ("description", .vStr d),
     ("resolve", .vStr r)] ++
    (if a.isEmpty then [] else [("args", .vMap (serializeArgs a))])

/-- `serializeType` (sdk.go): a legacy string becomes a simple scalar-type
map, a structured definition is serialized recursively, anything else
falls back to its `fmt.Sprintf("%v", ...)` rendering. -/
def serializeType : FieldType → GoVal
  | .fStr s =>
    .vMap [("kind", .vStr "scalar"), ("scalarType", .vStr s),
           ("name", .vStr s)]
  | .fTypeDef t => serializeTypeDefinition t
  | .fOther s => .vStr s

/-- `serializeTypeDefinition` (sdk.go): `kind` always; `name` and
`scalarType` only when non-empty; `ofType` recursively when the pointer is
non-nil; `fields` through `serializeArgs` when non-empty. -/
def serializeTypeDefinition : GraphQLTypeDefinition → GoVal
  | .mk kind name scalarType ofType fields =>
    .vMap ([("kind", .vStr kind)] ++
      (if name = "" then [] else [("name", .vStr name)]) ++
      (if scalarType = "" then [] else [("scalarType", .vStr scalarType)]) ++
      (match ofType with
       | some o => [("ofType", serializeTypeDefinition o)]
       | none => []) ++
      (if fields.isEmpty then []
       else [("fields", .vMap (serializeArgs fields))]))

end

/-- `createScalarType` (helpers.go). -/
def createScalarType (scalarType : String) : GraphQLTypeDefinition :=
  .mk "scalar" scalarType scalarType none []

/-- `createObjectType` (helpers.go). -/
def createObjectType (name : String) (fields : List (String × GoVal)) :
    GraphQLTypeDefinition :=
  .mk "object" name "" none fields

/-- `createListType` (helpers.go). -/
def createListType (ofType : GraphQLTypeDefinition) :
    GraphQLTypeDefinition :=
  .mk "list" "" "" (some ofType) []

/-- `createNonNullType` (helpers.go). -/
def createNonNullType (ofType : GraphQLTypeDefinition) :
    GraphQLTypeDefinition :=
  .mk "non_null" "" "" (some ofType) []

/-- `NonNullListField` (helpers.go): a field whose type is
`NonNull(List(NonNull(Scalar(itemType))))`, with empty args. -/
def NonNullListField (itemType description : String) : GraphQLField :=
  .mk (.fTypeDef (createNonNullType (createListType
        (createNonNullType (createScalarType itemType)))))
    description [] ""

/-- `ObjectFieldDef` (helpers.go). -/
structure ObjectFieldDef : Type where
  baseType : String
  description : String
  nullable : Bool
  isList : Bool
  listOfNonNull : Bool

/-- `ObjectTypeDefinition` (helpers.go): a named object type with a field
map. -/
structure ObjectTypeDef : Type where
  typeName : String
  description : String
  fields : List (String × ObjectFieldDef)

/-- `isScalarType` (helpers.go / sdk.go). -/
def isScalarTypeB (typeName : String) : Bool :=
  typeName = "String" || typeName = "Int" || typeName = "Boolean" ||
  typeName = "Float" || typeName = "ID"

/-- `serializeObjectTypeDefinition` (sdk.go): convert each `ObjectFieldDef`
into the engine's field format (scalar or bare object reference, wrapped
in list / non-null per the flags), then emit
`{kind: "object", name, description, fields}`. -/
def serializeObjectTypeDefinition (objectType : ObjectTypeDef) : GoVal :=
  let engineFields : List (String × GoVal) :=
    objectType.fields.map (fun e =>
      let fd := e.2
      let base : GoVal :=
        if isScalarTypeB fd.baseType then
          .vMap [("kind", .vStr "scalar"), ("name", .vStr fd.baseType),
                 ("scalarType", .vStr fd.baseType)]
        else
          .vMap [("kind", .vStr "object"), ("name", .vStr fd.baseType)]
      let listed : GoVal :=
        if fd.isList then
          if fd.listOfNonNull then
            .vMap [("kind", .vStr "list"),
                   ("ofType", .vMap [("kind", .vStr "non_null"),
                                     ("ofType", base)])]
          else
            .vMap [("kind", .vStr "list"), ("ofType", base)]
        else base
      let final : GoVal :=
        if ¬ fd.nullable then
          .vMap [("kind", .vStr "non_null"), ("ofType", listed)]
        else listed
      (e.1, .vMap [("type", final), ("description", .vStr fd.description)]))
  .vMap [("kind", .vStr "object"), ("name", .vStr objectType.typeName),
         ("description", .vStr objectType.description),
         ("fields", .vMap engineFields)]

/-- Outcome of invoking a registered handler with the current request's
context and args: the pair `(result, err)` the Go handler returns. -/
def HandlerOutcome : Type := Except String GoVal

/-- The registration state of a `Plugin` (sdk.go) relevant to dispatch and
schema registration.  Handler maps carry the outcome each handler would
produce for the request under consideration. -/
structure PluginModel : Type where
  queries : List (String × GraphQLField)
  mutations : List (String × GraphQLField)
  resolvers : List (String × HandlerOutcome)
  restHandlers : List (String × HandlerOutcome)
  functions : List (String × HandlerOutcome)
  objectTypes : List (String × ObjectTypeDef)

/-- `Plugin.RegisterObjectType` (sdk.go): keyed by the type's `TypeName`. -/
def registerObjectType (p : PluginModel) (o : ObjectTypeDef) : PluginModel :=
  { p with objectTypes := goInsert p.objectTypes o.typeName o }

/-- `ObjectTypeBuilder.Build` (helpers.go): returns the accumulated
definition and, when a plugin instance is active (`currentPlugin` non-nil,
modelled by the `Option`), registers it as a side effect. -/
def buildObjectType (b : ObjectTypeDef) (currentPlugin : Option PluginModel) :
    ObjectTypeDef × Option PluginModel :=
  (b, currentPlugin.map (fun p => registerObjectType p b))

/-- The queries map assembled by `SchemaRegister` (sdk.go): each query
serialized via `serializeGraphQLField`; when any object types are
registered, the synthetic `__objectTypes` entry is written into the map,
carrying the serialized object-type registry keyed by type name. -/
def schemaRegisterQueriesMap (p : PluginModel) : List (String × GoVal) :=
  let queriesMap : List (String × GoVal) :=
    p.queries.map (fun e => (e.1, .vMap (serializeGraphQLField e.2)))
  let objectTypesMap : List (String × GoVal) :=
    p.objectTypes.map (fun e => (e.1, serializeObjectTypeDefinition e.2))
  if objectTypesMap.isEmpty then queriesMap
  else
    goInsert queriesMap "__objectTypes"
      (.vMap [("type", .vStr "String"),
              ("description",
               .vStr "Object type definitions for nested objects"),
              ("objectTypes", .vMap objectTypesMap)])

/-- Models `strings.Split` with a single-character separator, on the
character list of the string.  The result is always non-empty. -/
def goSplitList (sep : Char) : List Char → List (List Char)
  | [] => [[]]
  | c :: rest =>
    match goSplitList sep rest with
    | [] => [[]]
    | g :: gs => if c = sep then [] :: g :: gs else (c :: g) :: gs

/-- Models `strings.Split(s, <single-char sep>)`. -/
def goSplit (sep : Char) (s : String) : List String :=
  (goSplitList sep s.data).map String.mk

/-- Models `strings.Join` (and the `strings.Builder` loop of `Execute`):
the parts joined with the separator between them. -/
def goJoin (sep : String) : List String → String
  | [] => ""
  | [p] => p
  | p :: rest => p ++ sep ++ goJoin sep rest

/-- Models `strings.ToUpper` (ASCII case mapping suffices here). -/
def goToUpper (s : String) : String :=
  String.mk (s.data.map Char.toUpper)

/-- Models `strings.HasPrefix(s, pre)`. -/
def goStartsWith (pre s : String) : Bool :=
  pre.data.isPrefixOf s.data

/-- `strings.SplitN(s, "_", 3)`: at most three pieces, the last carrying
the un-split remainder. -/
def goSplitN3Underscore (s : String) : List String :=
  let parts := goSplit '_' s
  if parts.length ≤ 3 then parts
  else parts.take 2 ++ [goJoin "_" (parts.drop 2)]

/-- The `rest_<method>_<path>` fallback of `Execute` (sdk.go): when the
name starts with `rest_` and splits into at least three pieces, rebuild
`upper(method) + "_/" + seg1 + "/" + seg2 + ...`. -/
def restReconstructKey (functionName : String) : Option String :=
  if goStartsWith "rest_" functionName then
    match goSplitN3Underscore functionName with
    | [_, method, pathStr] =>
      let pathParts := goSplit '_' pathStr
      some (goToUpper method ++ "_" ++ ("/" ++ goJoin "/" pathParts))
    | _ => none
  else none

/-- The `rest_api` handler lookup of `Execute` (sdk.go): the literal
function name first, then the reconstructed `METHOD_/path` key. -/
def restResolve {α : Type _} (handlers : List (String × α))
    (functionName : String) : Option α :=
  match goLookup handlers functionName with
  | some h => some h
  | none =>
    match restReconstructKey functionName with
    | some key => goLookup handlers key
    | none => none

/-- How far `Execute` (sdk.go) gets before serializing a result: an early
structured `{success, message}` reply, or a handler result that proceeds
to the result-encoding stage. -/
inductive ExecOutcome : Type where
  | reply : Bool → String → ExecOutcome
  | encodeResult : GoVal → ExecOutcome

/-- The dispatch portion of `Execute` (sdk.go), paired with the Go `error`
return value (which is `nil` on every path of the source). -/
def executeDispatchModel (p : PluginModel) (functionType functionName :
    String) : ExecOutcome × Option String :=
  let run : HandlerOutcome → ExecOutcome × Option String := fun r =>
    match r with
    | .error e => (.reply false ("Execution failed: " ++ e), none)
    | .ok v => (.encodeResult v, none)
  if functionType = "graphql_query" ∨ functionType = "graphql_mutation" then
    match goLookup p.resolvers functionName with
    | some r => run r
    | none =>
      (.reply false ("Unknown GraphQL resolver: " ++ functionName), none)
  else if functionType = "rest_api" then
    match restResolve p.restHandlers functionName with
    | some r => run r
    | none =>
      (.reply false ("Unknown REST handler: " ++ functionName), none)
  else if functionType = "function" ∨ functionType = "system" then
    match goLookup p.functions functionName with
    | some r => run r
    | none => (.reply false ("Unknown function: " ++ functionName), none)
  else
    (.reply false ("Unsupported function type: " ++ functionType), none)

/-- `parseStringArray` (helpers.go): element-wise `parseString`; a
non-array raw value is wrapped into a one-element array.  The Go result is
a typed `[]string`, modelled as an array of string values. -/
def parseStringArray : GoVal → GoVal
  | .vArr arr => .vArr (arr.map (fun item => .vStr (parseString item)))
  | v => .vArr [.vStr (parseString v)]

/-- `parseIntArray` (helpers.go). -/
def parseIntArray : GoVal → GoVal
  | .vArr arr => .vArr (arr.map (fun item => .vInt (parseInt item)))
  | v => .vArr [.vInt (parseInt v)]

/-- `parseBooleanArray` (helpers.go). -/
def parseBooleanArray : GoVal → GoVal
  | .vArr arr => .vArr (arr.map (fun item => .vBool (parseBoolean item)))
  | v => .vArr [.vBool (parseBoolean v)]

mutual

/-- `ArgParser.parseValue` (helpers.go): dispatch on the declared type
string of the argument definition map; unknown declarations and non-map
definitions pass the raw value through. -/
def parseValue (rawValue argDef : GoVal) : GoVal :=
  match argDef with
  | .vMap argDefMap =>
    let argType : String :=
      match goLookup argDefMap "type" with
      | some (.vStr s) => s
      | _ => ""
    if argType = "Object" then .vMap (parseObject rawValue argDefMap)
    else if argType = "[Object]" ∨ argType = "[Object!]" then
      .vArr (parseObjectArray rawValue argDefMap)
    else if argType = "[String]" ∨ argType = "[String!]" then
      parseStringArray rawValue
    else if argType = "[Int]" ∨ argType = "[Int!]" then
      parseIntArray rawValue
    else if argType = "[Boolean]" ∨ argType = "[Boolean!]" then
      parseBooleanArray rawValue
    else if argType = "String" ∨ argType = "String!" then
      .vStr (parseString rawValue)
    else if argType = "Int" ∨ argType = "Int!" then
      .vInt (parseInt rawValue)
    else if argType = "Boolean" ∨ argType = "Boolean!" then
      .vBool (parseBoolean rawValue)
    else if argType = "Float" ∨ argType = "Float!" then
      .vFloat (parseFloat rawValue)
    else rawValue
  | _ => rawValue
termination_by (sizeOf rawValue, 2)

/-- `ArgParser.parseObject` (helpers.go): a raw map with a declared
`properties` map is coerced property-wise (unknown properties kept as-is);
a raw map without usable `properties` is returned unchanged; a non-map raw
value yields an empty map. -/
def parseObject (rawValue : GoVal) (argDef : List (String × GoVal)) :
    List (String × GoVal) :=
  match rawValue with
  | .vMap objMap =>
    match goLookup argDef "properties" with
    | some (.vMap propMap) => parseObjectProps propMap objMap
    | _ => objMap
  | _ => []
termination_by (sizeOf rawValue, 0)

/-- The `for propName, propValue := range objMap` loop of `parseObject`:
declared properties are recursively coerced, unknown ones kept as-is. -/
def parseObjectProps (propMap entries : List (String × GoVal)) :
    List (String × GoVal) :=
  match entries with
  | [] => []
  | (pn, pv) :: rest =>
    (match goLookup propMap pn with
     | some pd => (pn, parseValue pv pd)
     | none => (pn, pv)) :: parseObjectProps propMap rest
termination_by (sizeOf entries, 3)

/-- `ArgParser.parseObjectArray` (helpers.go): element-wise `parseObject`;
a non-array raw value is wrapped into a one-element array. -/
def parseObjectArray (rawValue : GoVal) (argDef : List (String × GoVal)) :
    List GoVal :=
  match rawValue with
  | .vArr arr => parseObjectArrItems argDef arr
  | v => [.vMap (parseObject v argDef)]
termination_by (sizeOf rawValue, 1)

/-- The element loop of `parseObjectArray`. -/
def parseObjectArrItems (argDef : List (String × GoVal))
    (items : List GoVal) : List GoVal :=
  match items with
  | [] => []
  | item :: rest =>
    .vMap (parseObject item argDef) :: parseObjectArrItems argDef rest
termination_by (sizeOf items, 3)

end

/-- `ArgParser.ParseArgs` (helpers.go): iterate the field's declared
arguments; a declared argument present and non-nil in the raw map is
coerced into the result, everything else is omitted. -/
def ParseArgs (field : GraphQLField) (rawArgs : List (String × GoVal)) :
    List (String × GoVal) :=
  field.args.foldl (fun result e =>
    match goLookup rawArgs e.1 with
    | some .vNull => result
    | some rawValue => goInsert result e.1 (parseValue rawValue e.2)
    | none => result) []

/-- The complex-payload classification as the specification words it: a
non-empty array whose first element is a map, an array, or a struct; or a
map one of whose values is (recursively) such an array. -/
inductive ComplexPerSpec : GoVal → Prop where
  | arrFirstMap (m : List (String × GoVal)) (t : List GoVal) :
      ComplexPerSpec (.vArr (.vMap m :: t))
  | arrFirstArr (xs : List GoVal) (t : List GoVal) :
      ComplexPerSpec (.vArr (.vArr xs :: t))
  | arrFirstStruct (fs : List (String × GoVal)) (t : List GoVal) :
      ComplexPerSpec (.vArr (.vStruct fs :: t))
  | arrFirstField (f : GraphQLField) (t : List GoVal) :
      ComplexPerSpec (.vArr (.vField f :: t))
  | arrFirstTypeDef (td : GraphQLTypeDefinition) (t : List GoVal) :
      ComplexPerSpec (.vArr (.vTypeDef td :: t))
  | mapValue (entries : List (String × GoVal)) (k : String) (v : GoVal) :
      (k, v) ∈ entries → ComplexPerSpec v → ComplexPerSpec (.vMap entries)

/-! ## Helper lemmas about the Go map model -/

theorem goLookup_goInsert_self {α : Type _} (m : List (String × α))
    (k : String) (v : α) : goLookup (goInsert m k v) k = some v := by
  simp [goInsert, goLookup]

theorem goLookup_filter_ne {α : Type _} (m : List (String × α))
    (k k' : String) (h : k' ≠ k) :
    goLookup (m.filter (fun e => e.1 ≠ k)) k' = goLookup m k' := by
  induction m with
  | nil => rfl
  | cons e rest ih =>
    obtain ⟨a, b⟩ := e
    by_cases ha : a = k
    · have hak : a ≠ k' := by rw [ha]; exact fun hc => h hc.symm
      rw [List.filter_cons_of_neg (by simp [ha]), ih]
      simp [goLookup, hak]
    · rw [List.filter_cons_of_pos (by simp [ha])]
      simp only [goLookup, ih]

theorem goLookup_goInsert_ne {α : Type _} (m : List (String × α))
    (k k' : String) (v : α) (h : k' ≠ k) :
    goLookup (goInsert m k v) k' = goLookup m k' := by
  simp only [goInsert, goLookup]
  rw [if_neg (fun hc => h hc.symm)]
  exact goLookup_filter_ne m k k' h

theorem goLookup_eq_some_of_mem_nodup {α : Type _}
    {m : List (String × α)} {k : String} {v : α}
    (hmem : (k, v) ∈ m) (hnd : (m.map Prod.fst).Nodup) :
    goLookup m k = some v := by
  induction m with
  | nil => cases hmem
  | cons e rest ih =>
    simp only [List.map_cons, List.nodup_cons] at hnd
    rcases List.mem_cons.mp hmem with heq | hrest
    · rw [← heq]; simp [goLookup]
    · have hne : e.1 ≠ k := by
        intro hc
        exact hnd.1 (hc ▸ (List.mem_map.mpr ⟨(k, v), hrest, rfl⟩))
      simp [goLookup, hne, ih hrest hnd.2]

/-! ## C1: complex-payload detection -/

theorem anyEntryComplex_eq_any (l : List (String × GoVal)) :
    anyEntryComplex l = l.any (fun p => isComplexArrayData p.2) := by
  induction l with
  | nil => simp [anyEntryComplex]
  | cons e rest ih => cases e; simp [anyEntryComplex, ih]

theorem complexPerSpec_arr_iff (h : GoVal) (t : List GoVal) :
    ComplexPerSpec (.vArr (h :: t)) ↔ headIsComplex h = true := by
  constructor
  · intro hs
    cases hs <;> rfl
  · intro hh
    cases h with
    | vMap m => exact .arrFirstMap m t
    | vArr xs => exact .arrFirstArr xs t
    | vStruct fs => exact .arrFirstStruct fs t
    | vField f => exact .arrFirstField f t
    | vTypeDef td => exact .arrFirstTypeDef td t
    | vNull => simp [headIsComplex] at hh
    | vBool b => simp [headIsComplex] at hh
    | vInt n => simp [headIsComplex] at hh
    | vFloat q => simp [headIsComplex] at hh
    | vStr s => simp [headIsComplex] at hh

theorem sizeOf_snd_lt_of_mem_entries {p : String × GoVal}
    {entries : List (String × GoVal)} (hp : p ∈ entries) :
    sizeOf p.2 < sizeOf (GoVal.vMap entries) := by
  have h1 := List.sizeOf_lt_of_mem hp
  obtain ⟨a, b⟩ := p
  simp only [Prod.mk.sizeOf_spec] at h1
  simp only [GoVal.vMap.sizeOf_spec]
  omega

theorem isComplexArrayData_iff_aux :
    ∀ (n : ℕ) (v : GoVal), sizeOf v ≤ n →
      (isComplexArrayData v = true ↔ ComplexPerSpec v) := by
  intro n
  induction n with
  | zero =>
    intro v hv
    exfalso
    cases v <;> simp_all
  | succ n ih =>
    intro v hv
    cases v with
    | vArr xs =>
      cases xs with
      | nil =>
        simp only [isComplexArrayData]
        constructor
        · intro h; cases h
        · intro h; cases h
      | cons h t =>
        simp only [isComplexArrayData]
        rw [complexPerSpec_arr_iff]
    | vMap entries =>
      simp only [isComplexArrayData, anyEntryComplex_eq_any,
        List.any_eq_true]
      constructor
      · rintro ⟨p, hp, hc⟩
        have hsz : sizeOf p.2 ≤ n := by
          have := sizeOf_snd_lt_of_mem_entries hp
          omega
        exact .mapValue entries p.1 p.2 hp ((ih p.2 hsz).mp hc)
      · intro hs
        cases hs with
        | mapValue _ k v' hmem hspec =>
          refine ⟨(k, v'), hmem, ?_⟩
          have hsz : sizeOf (k, v').2 ≤ n := by
            have := sizeOf_snd_lt_of_mem_entries hmem
            omega
          exact (ih v' hsz).mpr hspec
    | vNull =>
      simp only [isComplexArrayData]
      constructor
      · intro h; simp at h
      · intro h; cases h
    | vBool b =>
      simp only [isComplexArrayData]
      constructor
      · intro h; simp at h
      · intro h; cases h
    | vInt m =>
      simp only [isComplexArrayData]
      constructor
      · intro h; simp at h
      · intro h; cases h
    | vFloat q =>
      simp only [isComplexArrayData]
      constructor
      · intro h; simp at h
      · intro h; cases h
    | vStr s =>
      simp only [isComplexArrayData]
      constructor
      · intro h; simp at h
      · intro h; cases h
    | vStruct fs =>
      simp only [isComplexArrayData]
      constructor
      · intro h; simp at h
      · intro h; cases h
    | vField f =>
      simp only [isComplexArrayData]
      constructor
      · intro h; simp at h
      · intro h; cases h
    | vTypeDef td =>
      simp only [isComplexArrayData]
      constructor
      · intro h; simp at h
      · intro h; cases h

/-- C1: `isComplexArrayData` classifies a handler result as complex iff it
is a non-empty array whose first element is a map, an array, or a struct,
or a map one of whose values is recursively such an array; the empty array
and `["x","y"]` are simple, `[{"id":1}]` and `{"items":[{"id":1}]}` are
complex; and `Execute` serializes complex results via the JSON-bytes
fallback and simple results via structpb. -/
theorem c1_complex_payload_detection :
    (∀ v : GoVal, isComplexArrayData v = true ↔ ComplexPerSpec v) ∧
    isComplexArrayData (.vArr []) = false ∧
    isComplexArrayData (.vArr [.vMap [("id", .vInt 1)]]) = true ∧
    isComplexArrayData (.vArr [.vStr "x", .vStr "y"]) = false ∧
    isComplexArrayData
      (.vMap [("items", .vArr [.vMap [("id", .vInt 1)]])]) = true ∧
    (∀ r : GoVal, executeResultEncoding r =
      if isComplexArrayData r then ResultEncoding.jsonBytes
      else ResultEncoding.structpb) := by
  refine ⟨fun v => isComplexArrayData_iff_aux (sizeOf v) v le_rfl,
    ?_, ?_, ?_, ?_, fun r => rfl⟩
  · simp [isComplexArrayData]
  · simp [isComplexArrayData, headIsComplex]
  · simp [isComplexArrayData, headIsComplex]
  · simp [isComplexArrayData, anyEntryComplex, headIsComplex]

/-! ## C2: REST function-name dispatch and path reconstruction -/

/-- C2: for `rest_api` requests the function name is looked up literally
first; on a miss, a name of the form `rest_<method>_<seg1>_<seg2>_...` is
reconstructed into `upper(method) + "_/" + seg1 + "/" + seg2 + ...` and
looked up again; in particular `rest_get_hello` reaches a handler
registered as `GET_/hello` and `rest_get_users_:id` reconstructs to
`GET_/users/:id`. -/
theorem c2_rest_dispatch_reconstruction :
    (∀ {α : Type} (handlers : List (String × α)) (functionName : String)
      (h : α), goLookup handlers functionName = some h →
      restResolve handlers functionName = some h) ∧
    (∀ {α : Type} (handlers : List (String × α)) (functionName : String),
      goLookup handlers functionName = none →
      restResolve handlers functionName =
        (restReconstructKey functionName).bind
          (fun key => goLookup handlers key)) ∧
    restReconstructKey "rest_get_hello" = some "GET_/hello" ∧
    restReconstructKey "rest_get_users_:id" = some "GET_/users/:id" ∧
    restResolve [("GET_/hello", 0)] "rest_get_hello" = some 0 ∧
    restResolve [("GET_/users/:id", 0)] "rest_get_users_:id" = some 0 := by
  refine ⟨?_, ?_, by decide, by decide, by decide, by decide⟩
  · intro α handlers fn h hl
    simp [restResolve, hl]
  · intro α handlers fn hl
    simp only [restResolve, hl]
    cases hr : restReconstructKey fn <;> simp [hr]

/-- Witness for C2 at concrete inputs. -/
theorem c2_rest_dispatch_reconstruction_witness :
    restResolve [("a", 1)] "a" = some 1 ∧
    restResolve [("GET_/hello", 2)] "rest_get_hello" =
      (restReconstructKey "rest_get_hello").bind
        (fun key => goLookup [("GET_/hello", 2)] key) :=
  ⟨c2_rest_dispatch_reconstruction.1 [("a", 1)] "a" 1 (by decide),
   c2_rest_dispatch_reconstruction.2.1 [("GET_/hello", 2)] "rest_get_hello"
     (by decide)⟩

/-! ## C3: integer coercion -/

/-- C3: coercion of a raw value to a declared `Int` argument keeps native
integers (`int` and `int64` both), truncates floats toward zero, parses
base-10 integer strings (`"42"` yields `42`), and yields `0` for every
other value (including `"abc"`); being a total function of the embedding,
it never errors or panics. -/
theorem c3_int_coercion :
    (∀ n : Int, parseInt (.vInt n) = n) ∧
    (∀ q : Rat, parseInt (.vFloat q) = ratTruncToInt q) ∧
    parseInt (.vFloat (7 / 2 : Rat)) = 3 ∧
    parseInt (.vFloat (-7 / 2 : Rat)) = -3 ∧
    (∀ (s : String) (n : Int), goAtoi s = some n →
      parseInt (.vStr s) = n) ∧
    (∀ s : String, goAtoi s = none → parseInt (.vStr s) = 0) ∧
    parseInt (.vStr "42") = 42 ∧
    parseInt (.vStr "abc") = 0 ∧
    parseInt .vNull = 0 ∧
    (∀ b, parseInt (.vBool b) = 0) ∧
    (∀ xs, parseInt (.vArr xs) = 0) ∧
    (∀ m, parseInt (.vMap m) = 0) ∧
    (∀ fs, parseInt (.vStruct fs) = 0) ∧
    (∀ f, parseInt (.vField f) = 0) ∧
    (∀ t, parseInt (.vTypeDef t) = 0) := by
  refine ⟨fun n => rfl, fun q => rfl, ?_, ?_, ?_, ?_,
    by decide, by decide, rfl, fun b => rfl, fun xs => rfl, fun m => rfl,
    fun fs => rfl, fun f => rfl, fun t => rfl⟩
  · show ratTruncToInt (7 / 2 : Rat) = 3
    rw [ratTruncToInt, if_pos (by norm_num)]
    norm_num
  · show ratTruncToInt (-7 / 2 : Rat) = -3
    rw [ratTruncToInt, if_neg (by norm_num),
      show ((-7 : Rat) / 2) = -(7 / 2) by ring, Int.ceil_neg]
    norm_num
  · intro s n hs
    simp [parseInt, hs]
  · intro s hs
    simp [parseInt, hs]

/-- Witness for C3 at concrete inputs. -/
theorem c3_int_coercion_witness :
    parseInt (.vStr "42") = 42 ∧ parseInt (.vStr "abc") = 0 :=
  ⟨c3_int_coercion.2.2.2.2.1 "42" 42 (by decide),
   c3_int_coercion.2.2.2.2.2.1 "abc" (by decide)⟩

/-! ## C4: object coercion keeps unknown properties -/

theorem parseObjectProps_map_fst (propMap entries : List (String × GoVal)) :
    (parseObjectProps propMap entries).map Prod.fst =
      entries.map Prod.fst := by
  induction entries with
  | nil => simp [parseObjectProps]
  | cons e rest ih =>
    obtain ⟨pn, pv⟩ := e
    cases h : goLookup propMap pn <;> simp [parseObjectProps, h, ih]

theorem parseObjectProps_mem_undeclared {propMap entries :
    List (String × GoVal)} {k : String} {v : GoVal}
    (hmem : (k, v) ∈ entries) (hnd : goLookup propMap k = none) :
    (k, v) ∈ parseObjectProps propMap entries := by
  induction entries with
  | nil => cases hmem
  | cons e rest ih =>
    obtain ⟨pn, pv⟩ := e
    rcases List.mem_cons.mp hmem with heq | hrest
    · obtain ⟨h1, h2⟩ := Prod.mk.injEq .. ▸ heq
      subst h1; subst h2
      simp [parseObjectProps, hnd]
    · cases h : goLookup propMap pn <;>
        simp [parseObjectProps, h, ih hrest]

theorem parseObjectProps_mem_declared {propMap entries :
    List (String × GoVal)} {k : String} {v d : GoVal}
    (hmem : (k, v) ∈ entries) (hd : goLookup propMap k = some d) :
    (k, parseValue v d) ∈ parseObjectProps propMap entries := by
  induction entries with
  | nil => cases hmem
  | cons e rest ih =>
    obtain ⟨pn, pv⟩ := e
    rcases List.mem_cons.mp hmem with heq | hrest
    · obtain ⟨h1, h2⟩ := Prod.mk.injEq .. ▸ heq
      subst h1; subst h2
      simp [parseObjectProps, hd]
    · cases h : goLookup propMap pn <;>
        simp [parseObjectProps, h, ih hrest]

/-- C4: coercing a raw map against a declared `Object` with a `properties`
map keeps every key of the raw map — declared keys are recursively
coerced, undeclared keys pass through unchanged; e.g. properties `{a}`
applied to `{a: 1, b: 2}` keeps both `a` and `b`. -/
theorem c4_object_unknown_property_kept :
    (∀ (argDef propMap objMap : List (String × GoVal)),
      goLookup argDef "properties" = some (.vMap propMap) →
      ((parseObject (.vMap objMap) argDef).map Prod.fst =
          objMap.map Prod.fst) ∧
      (∀ k v, (k, v) ∈ objMap → goLookup propMap k = none →
        (k, v) ∈ parseObject (.vMap objMap) argDef) ∧
      (∀ k v d, (k, v) ∈ objMap → goLookup propMap k = some d →
        (k, parseValue v d) ∈ parseObject (.vMap objMap) argDef)) ∧
    parseObject (.vMap [("a", .vInt 1), ("b", .vInt 2)])
        [("properties", .vMap [("a", .vMap [("type", .vStr "Int")])])] =
      [("a", .vInt 1), ("b", .vInt 2)] := by
  constructor
  · intro argDef propMap objMap hp
    have hobj : parseObject (.vMap objMap) argDef =
        parseObjectProps propMap objMap := by
      simp [parseObject, hp]
    rw [hobj]
    exact ⟨parseObjectProps_map_fst propMap objMap,
      fun k v hm hn => parseObjectProps_mem_undeclared hm hn,
      fun k v d hm hd => parseObjectProps_mem_declared hm hd⟩
  · simp [parseObject, parseObjectProps, parseValue, goLookup, parseInt]

/-- Witness for C4 at concrete inputs. -/
theorem c4_object_unknown_property_kept_witness :
    (parseObject (.vMap [("a", .vInt 1), ("b", .vInt 2)])
        [("properties", .vMap [("a", .vMap [("type", .vStr "Int")])])]).map
        Prod.fst =
      ["a", "b"] ∧
    ("b", .vInt 2) ∈ parseObject (.vMap [("a", .vInt 1), ("b", .vInt 2)])
        [("properties", .vMap [("a", .vMap [("type", .vStr "Int")])])] := by
  obtain ⟨h1, h2, h3⟩ :=
    (c4_object_unknown_property_kept.1
      [("properties", .vMap [("a", .vMap [("type", .vStr "Int")])])]
      [("a", .vMap [("type", .vStr "Int")])]
      [("a", .vInt 1), ("b", .vInt 2)] (by simp [goLookup]))
  exact ⟨by rw [h1]; rfl, h2 "b" (.vInt 2) (by simp) (by simp [goLookup])⟩

/-! ## C9: the two string-to-bool layers disagree -/

/-- C9: `parseBoolean` (the argument-coercion layer) accepts only a native
boolean and yields `false` for every other raw value, including the
strings "true", "1" and "yes"; `GetQueryParamBool` (the REST
query-parameter layer), given a string value under the `query_` key,
yields `true` exactly when the lowercased string is "true", "1" or
"yes". -/
theorem c9_bool_coercion_layers_disagree :
    (∀ b, parseBoolean (.vBool b) = b) ∧
    parseBoolean (.vStr "true") = false ∧
    parseBoolean (.vStr "1") = false ∧
    parseBoolean (.vStr "yes") = false ∧
    parseBoolean .vNull = false ∧
    (∀ n, parseBoolean (.vInt n) = false) ∧
    (∀ q, parseBoolean (.vFloat q) = false) ∧
    (∀ s, parseBoolean (.vStr s) = false) ∧
    (∀ xs, parseBoolean (.vArr xs) = false) ∧
    (∀ m, parseBoolean (.vMap m) = false) ∧
    (∀ fs, parseBoolean (.vStruct fs) = false) ∧
    (∀ f, parseBoolean (.vField f) = false) ∧
    (∀ t, parseBoolean (.vTypeDef t) = false) ∧
    (∀ (argsMap : List (String × GoVal)) (p s : String),
      goLookup argsMap ("query_" ++ p) = some (.vStr s) →
      GetQueryParamBool argsMap p [] = boolStringTest s) ∧
    (∀ s, boolStringTest s =
      (goToLower s = "true" || goToLower s = "1" || goToLower s = "yes")) ∧
    GetQueryParamBool [("query_x", .vStr "true")] "x" [] = true ∧
    GetQueryParamBool [("query_x", .vStr "1")] "x" [] = true ∧
    GetQueryParamBool [("query_x", .vStr "YES")] "x" [] = true ∧
    GetQueryParamBool [("query_x", .vStr "no")] "x" [] = false := by
  refine ⟨fun b => rfl, rfl, rfl, rfl, rfl, fun n => rfl, fun q => rfl,
    fun s => rfl, fun xs => rfl, fun m => rfl, fun fs => rfl, fun f => rfl,
    fun t => rfl, ?_, fun s => rfl, by decide, by decide, by decide,
    by decide⟩
  intro argsMap p s hl
  simp [GetQueryParamBool, hl]

/-- Witness for C9 at concrete inputs. -/
theorem c9_bool_coercion_layers_disagree_witness :
    GetQueryParamBool [("query_x", .vStr "yes")] "x" [] =
      boolStringTest "yes" :=
  c9_bool_coercion_layers_disagree.2.2.2.2.2.2.2.2.2.2.2.2.2.1
    [("query_x", .vStr "yes")] "x" "yes" (by simp [goLookup])

/-! ## C10: ParseArgs keeps exactly the declared, present, non-nil keys -/

theorem keyMem_goInsert {α : Type _} (m : List (String × α))
    (k k' : String) (v0 : α) :
    (∃ v, (k', v) ∈ goInsert m k v0) ↔ k' = k ∨ ∃ v, (k', v) ∈ m := by
  by_cases hk : k' = k
  · subst hk
    simp [goInsert]
  · simp [goInsert, List.mem_filter, hk]

theorem parseArgs_fold_keyMem (rawArgs : List (String × GoVal)) :
    ∀ (l init : List (String × GoVal)) (k : String),
      (∃ v, (k, v) ∈ l.foldl (fun result e =>
          match goLookup rawArgs e.1 with
          | some .vNull => result
          | some rawValue => goInsert result e.1 (parseValue rawValue e.2)
          | none => result) init) ↔
        ((∃ v, (k, v) ∈ init) ∨
         ((∃ d, (k, d) ∈ l) ∧
          ∃ rv, goLookup rawArgs k = some rv ∧ rv ≠ .vNull)) := by
  intro l
  induction l with
  | nil => intro init k; simp
  | cons e rest ih =>
    intro init k
    obtain ⟨n, d⟩ := e
    simp only [List.foldl_cons]
    rw [ih]
    by_cases hkn : k = n
    · subst hkn
      cases hn : goLookup rawArgs k with
      | none =>
        constructor
        · rintro (h | ⟨h1, h2⟩)
          · exact Or.inl h
          · exact Or.inr ⟨⟨d, List.mem_cons_self _ _⟩, h2⟩
        · rintro (h | ⟨h1, rv, hrv, hne⟩)
          · exact Or.inl h
          · simp at hrv
      | some rv =>
        cases rv
        · constructor
          · rintro (h | ⟨h1, h2⟩)
            · exact Or.inl h
            · exact Or.inr ⟨⟨d, List.mem_cons_self _ _⟩, h2⟩
          · rintro (h | ⟨h1, rv', hrv, hne⟩)
            · exact Or.inl h
            · injection hrv with h'
              exact absurd h'.symm hne
        all_goals
          rw [keyMem_goInsert]
          exact ⟨fun h => Or.inr ⟨⟨d, List.mem_cons_self _ _⟩,
              ⟨_, rfl, by simp⟩⟩,
            fun h => Or.inl (Or.inl rfl)⟩
    · have hmem : (∃ d', (k, d') ∈ (n, d) :: rest) ↔
          (∃ d', (k, d') ∈ rest) := by
        constructor
        · rintro ⟨d', hd'⟩
          rcases List.mem_cons.mp hd' with heq | hr
          · exact absurd (congrArg Prod.fst heq) hkn
          · exact ⟨d', hr⟩
        · rintro ⟨d', hd'⟩
          exact ⟨d', List.mem_cons_of_mem _ hd'⟩
      have hstep : (∃ v, (k, v) ∈
          (match goLookup rawArgs n with
           | some .vNull => init
           | some rawValue => goInsert init n (parseValue rawValue d)
           | none => init)) ↔ (∃ v, (k, v) ∈ init) := by
        cases hn : goLookup rawArgs n with
        | none => exact Iff.rfl
        | some rv =>
          cases rv with
          | vNull => exact Iff.rfl
          | vBool b => rw [keyMem_goInsert]; simp [hkn]
          | vInt m => rw [keyMem_goInsert]; simp [hkn]
          | vFloat q => rw [keyMem_goInsert]; simp [hkn]
          | vStr s => rw [keyMem_goInsert]; simp [hkn]
          | vArr xs => rw [keyMem_goInsert]; simp [hkn]
          | vMap mm => rw [keyMem_goInsert]; simp [hkn]
          | vStruct fs => rw [keyMem_goInsert]; simp [hkn]
          | vField f => rw [keyMem_goInsert]; simp [hkn]
          | vTypeDef td => rw [keyMem_goInsert]; simp [hkn]
      rw [hstep, hmem]

/-- C10: `ParseArgs` returns a map whose key set is exactly the declared
argument names that occur in the raw map with a non-nil value: top-level
unknown raw arguments are dropped, and declared arguments absent or nil in
the raw map are omitted. -/
theorem c10_parse_args_key_set (field : GraphQLField)
    (rawArgs : List (String × GoVal)) (k : String) :
    (∃ v, (k, v) ∈ ParseArgs field rawArgs) ↔
      ((∃ d, (k, d) ∈ field.args) ∧
       ∃ rv, goLookup rawArgs k = some rv ∧ rv ≠ .vNull) := by
  have h := parseArgs_fold_keyMem rawArgs field.args [] k
  simpa [ParseArgs] using h

/-! ## C5: NonNullListField and its serialization -/

/-- C5: `NonNullListField(itemType, ...)` has type
`NonNull(List(NonNull(Scalar(itemType))))`, and serializing it gives the
four-level nesting non_null → list → non_null → scalar, the scalar level
carrying `scalarType` and `name` equal to `itemType`. -/
theorem c5_non_null_list_field (itemType description : String)
    (h : itemType ≠ "") :
    (NonNullListField itemType description).fieldType =
      .fTypeDef (createNonNullType (createListType
        (createNonNullType (createScalarType itemType)))) ∧
    serializeType (NonNullListField itemType description).fieldType =
      .vMap [("kind", .vStr "non_null"),
        ("ofType", .vMap [("kind", .vStr "list"),
          ("ofType", .vMap [("kind", .vStr "non_null"),
            ("ofType", .vMap [("kind", .vStr "scalar"),
              ("name", .vStr itemType),
              ("scalarType", .vStr itemType)])])])] := by
  refine ⟨rfl, ?_⟩
  simp [NonNullListField, GraphQLField.fieldType, serializeType,
    serializeTypeDefinition, createNonNullType, createListType,
    createScalarType, h]

/-- Witness for C5 at `itemType = "String"`. -/
theorem c5_non_null_list_field_witness :
    serializeType (NonNullListField "String" "xs").fieldType =
      .vMap [("kind", .vStr "non_null"),
        ("ofType", .vMap [("kind", .vStr "list"),
          ("ofType", .vMap [("kind", .vStr "non_null"),
            ("ofType", .vMap [("kind", .vStr "scalar"),
              ("name", .vStr "String"),
              ("scalarType", .vStr "String")])])])] :=
  (c5_non_null_list_field "String" "xs" (by decide)).2

/-! ## C6: Build() auto-registration and the __objectTypes injection -/

/-- C6: `Build()` returns the accumulated definition and, when a plugin
instance is active, registers it under its `TypeName`; `SchemaRegister`
injects the synthetic `__objectTypes` query entry carrying the serialized
object-type registry keyed by type name exactly when at least one object
type is registered. -/
theorem c6_build_registration_and_object_types :
    (∀ b : ObjectTypeDef, buildObjectType b none = (b, none)) ∧
    (∀ (b : ObjectTypeDef) (p : PluginModel),
      (buildObjectType b (some p)).1 = b) ∧
    (∀ (b : ObjectTypeDef) (p : PluginModel),
      (buildObjectType b (some p)).2 = some (registerObjectType p b)) ∧
    (∀ (b : ObjectTypeDef) (p : PluginModel),
      goLookup (registerObjectType p b).objectTypes b.typeName = some b) ∧
    (∀ p : PluginModel, p.objectTypes ≠ [] →
      goLookup (schemaRegisterQueriesMap p) "__objectTypes" =
        some (.vMap [("type", .vStr "String"),
          ("description",
           .vStr "Object type definitions for nested objects"),
          ("objectTypes", .vMap (p.objectTypes.map
            (fun e => (e.1, serializeObjectTypeDefinition e.2))))])) ∧
    (∀ p : PluginModel, p.objectTypes = [] →
      schemaRegisterQueriesMap p =
        p.queries.map (fun e => (e.1, .vMap (serializeGraphQLField e.2)))) := by
  refine ⟨fun b => rfl, fun b p => rfl, fun b p => rfl, ?_, ?_, ?_⟩
  · intro b p
    exact goLookup_goInsert_self _ _ _
  · intro p hp
    have hne : ¬ (p.objectTypes.map
        (fun e => (e.1, serializeObjectTypeDefinition e.2))).isEmpty = true := by
      cases h : p.objectTypes with
      | nil => exact absurd h hp
      | cons a l => simp [h]
    simp only [schemaRegisterQueriesMap, hne, if_neg, Bool.false_eq_true,
      not_false_eq_true, reduceIte]
    exact goLookup_goInsert_self _ _ _
  · intro p hp
    simp [schemaRegisterQueriesMap, hp]

/-- Witness for C6 at a one-entry registry. -/
theorem c6_build_registration_and_object_types_witness :
    goLookup (schemaRegisterQueriesMap
        (PluginModel.mk [] [] [] [] [] [("T", ObjectTypeDef.mk "T" "t" [])]))
        "__objectTypes" =
      some (.vMap [("type", .vStr "String"),
        ("description", .vStr "Object type definitions for nested objects"),
        ("objectTypes", .vMap [("T",
          serializeObjectTypeDefinition (ObjectTypeDef.mk "T" "t" []))])]) := by
  have h := c6_build_registration_and_object_types.2.2.2.2.1
    (PluginModel.mk [] [] [] [] [] [("T", ObjectTypeDef.mk "T" "t" [])])
    (by simp)
  simpa using h

/-! ## C7: dispatch misses are structured replies, never transport faults -/

/-- C7: every `Execute` path returns a nil transport error; an unknown
GraphQL resolver, an unknown REST handler (even after the fallback
reconstruction), an unknown function, and an unsupported function type
each produce a `success = false` reply with an explanatory message, as
does a handler-returned error. -/
theorem c7_dispatch_miss_structured_reply :
    (∀ (p : PluginModel) (ft fn : String),
      (executeDispatchModel p ft fn).2 = none) ∧
    (∀ (p : PluginModel) (ft fn : String),
      (ft = "graphql_query" ∨ ft = "graphql_mutation") →
      goLookup p.resolvers fn = none →
      (executeDispatchModel p ft fn).1 =
        .reply false ("Unknown GraphQL resolver: " ++ fn)) ∧
    (∀ (p : PluginModel) (fn : String),
      restResolve p.restHandlers fn = none →
      (executeDispatchModel p "rest_api" fn).1 =
        .reply false ("Unknown REST handler: " ++ fn)) ∧
    (∀ (p : PluginModel) (ft fn : String),
      (ft = "function" ∨ ft = "system") →
      goLookup p.functions fn = none →
      (executeDispatchModel p ft fn).1 =
        .reply false ("Unknown function: " ++ fn)) ∧
    (∀ (p : PluginModel) (ft fn : String),
      ft ≠ "graphql_query" → ft ≠ "graphql_mutation" → ft ≠ "rest_api" →
      ft ≠ "function" → ft ≠ "system" →
      (executeDispatchModel p ft fn).1 =
        .reply false ("Unsupported function type: " ++ ft)) ∧
    (∀ (p : PluginModel) (ft fn e : String),
      (ft = "graphql_query" ∨ ft = "graphql_mutation") →
      goLookup p.resolvers fn = some (.error e) →
      (executeDispatchModel p ft fn).1 =
        .reply false ("Execution failed: " ++ e)) := by
  refine ⟨?_, ?_, ?_, ?_, ?_, ?_⟩
  · intro p ft fn
    unfold executeDispatchModel
    dsimp only
    repeat first
    | rfl
    | split
  · intro p ft fn hft hl
    rcases hft with h | h <;> subst h <;>
      simp [executeDispatchModel, hl]
  · intro p fn hl
    simp [executeDispatchModel, hl]
  · intro p ft fn hft hl
    rcases hft with h | h <;> subst h <;>
      simp [executeDispatchModel, hl]
  · intro p ft fn h1 h2 h3 h4 h5
    simp [executeDispatchModel, h1, h2, h3, h4, h5]
  · intro p ft fn e hft hl
    rcases hft with h | h <;> subst h <;>
      simp [executeDispatchModel, hl]

/-- Witness for C7 at concrete dispatch misses on an empty plugin. -/
theorem c7_dispatch_miss_structured_reply_witness :
    (executeDispatchModel (PluginModel.mk [] [] [] [] [] [])
        "graphql_query" "x").1 =
      .reply false ("Unknown GraphQL resolver: " ++ "x") ∧
    (executeDispatchModel (PluginModel.mk [] [] [] [] [] [])
        "rest_api" "y").1 =
      .reply false ("Unknown REST handler: " ++ "y") ∧
    (executeDispatchModel (PluginModel.mk [] [] [] [] [] [])
        "bogus" "z").1 =
      .reply false ("Unsupported function type: " ++ "bogus") ∧
    (executeDispatchModel (PluginModel.mk [] [] [] [] [] [])
        "graphql_query" "x").2 = none :=
  ⟨c7_dispatch_miss_structured_reply.2.1 _ "graphql_query" "x"
      (Or.inl rfl) rfl,
   c7_dispatch_miss_structured_reply.2.2.1 _ "y" (by simp [restResolve,
      goLookup, restReconstructKey, goStartsWith]),
   c7_dispatch_miss_structured_reply.2.2.2.2.1 _ "bogus" "z"
      (by decide) (by decide) (by decide) (by decide) (by decide),
   c7_dispatch_miss_structured_reply.1 _ "graphql_query" "x"⟩

/-! ## C8: context data is merged into args and into the Go context -/

theorem contextKey_inj {a b : String}
    (h : "context_" ++ a = "context_" ++ b) : a = b := by
  have hd := congrArg String.data h
  simp only [String.data_append] at hd
  exact String.ext (List.append_cancel_left hd)

theorem merge_lookup_of_not_mem (l : List (String × GoVal)) :
    ∀ (a : List (String × GoVal)) (k : String),
      k ∉ l.map Prod.fst →
      goLookup (mergeContextIntoArgs a l) ("context_" ++ k) =
        goLookup a ("context_" ++ k) := by
  induction l with
  | nil => intro a k _; rfl
  | cons e rest ih =>
    intro a k hk
    obtain ⟨c, v⟩ := e
    simp only [List.map_cons, List.mem_cons, not_or] at hk
    have hne : ("context_" ++ k) ≠ ("context_" ++ c) :=
      fun hc => hk.1 (contextKey_inj hc)
    calc goLookup (mergeContextIntoArgs
          (goInsert a ("context_" ++ c) v) rest) ("context_" ++ k)
        = goLookup (goInsert a ("context_" ++ c) v) ("context_" ++ k) :=
          ih _ k hk.2
      _ = goLookup a ("context_" ++ k) :=
          goLookup_goInsert_ne _ _ _ _ hne

theorem merge_lookup_of_mem (l : List (String × GoVal)) :
    ∀ (a : List (String × GoVal)) (k : String) (v : GoVal),
      (l.map Prod.fst).Nodup → (k, v) ∈ l →
      goLookup (mergeContextIntoArgs a l) ("context_" ++ k) = some v := by
  induction l with
  | nil => intro a k v _ hm; cases hm
  | cons e rest ih =>
    intro a k v hnd hm
    obtain ⟨c, v'⟩ := e
    simp only [List.map_cons, List.nodup_cons] at hnd
    rcases List.mem_cons.mp hm with heq | hrest
    · obtain ⟨h1, h2⟩ := Prod.mk.injEq .. ▸ heq
      subst h1; subst h2
      have hnm : k ∉ rest.map Prod.fst := hnd.1
      calc goLookup (mergeContextIntoArgs
            (goInsert a ("context_" ++ k) v) rest) ("context_" ++ k)
          = goLookup (goInsert a ("context_" ++ k) v) ("context_" ++ k) :=
            merge_lookup_of_not_mem rest _ k hnm
        _ = some v := goLookup_goInsert_self _ _ _
    · exact ih _ k v hnd.2 hrest

theorem merge_lookup_unprefixed (l : List (String × GoVal)) :
    ∀ (a : List (String × GoVal)) (k : String),
      (∀ c ∈ l.map Prod.fst, ("context_" ++ c) ≠ k) →
      goLookup (mergeContextIntoArgs a l) k = goLookup a k := by
  induction l with
  | nil => intro a k _; rfl
  | cons e rest ih =>
    intro a k hk
    obtain ⟨c, v⟩ := e
    have hne : k ≠ ("context_" ++ c) :=
      fun hc => hk c (by simp) hc.symm
    calc goLookup (mergeContextIntoArgs
          (goInsert a ("context_" ++ c) v) rest) k
        = goLookup (goInsert a ("context_" ++ c) v) k :=
          ih _ k (fun c' hc' => hk c' (by simp [hc']))
      _ = goLookup a k := goLookup_goInsert_ne _ _ _ _ hne

theorem inject_lookup_of_not_mem (l : List (String × GoVal)) :
    ∀ (c0 : CtxChain) (k : String),
      k ∉ l.map Prod.fst →
      ctxValue (injectContext c0 l) k = ctxValue c0 k := by
  induction l with
  | nil => intro c0 k _; rfl
  | cons e rest ih =>
    intro c0 k hk
    obtain ⟨c, v⟩ := e
    simp only [List.map_cons, List.mem_cons, not_or] at hk
    have step : ctxValue (injectContext ((c, v) :: c0) rest) k =
        ctxValue ((c, v) :: c0) k := ih _ k hk.2
    calc ctxValue (injectContext ((c, v) :: c0) rest) k
        = ctxValue ((c, v) :: c0) k := step
      _ = ctxValue c0 k := by
          have hck : c ≠ k := fun hc => hk.1 hc.symm
          simp [ctxValue, goLookup, hck]

theorem inject_lookup_of_mem (l : List (String × GoVal)) :
    ∀ (c0 : CtxChain) (k : String) (v : GoVal),
      (l.map Prod.fst).Nodup → (k, v) ∈ l →
      ctxValue (injectContext c0 l) k = some v := by
  induction l with
  | nil => intro c0 k v _ hm; cases hm
  | cons e rest ih =>
    intro c0 k v hnd hm
    obtain ⟨c, v'⟩ := e
    simp only [List.map_cons, List.nodup_cons] at hnd
    rcases List.mem_cons.mp hm with heq | hrest
    · obtain ⟨h1, h2⟩ := Prod.mk.injEq .. ▸ heq
      subst h1; subst h2
      calc ctxValue (injectContext ((k, v) :: c0) rest) k
          = ctxValue ((k, v) :: c0) k :=
            inject_lookup_of_not_mem rest _ k hnd.1
        _ = some v := by simp [ctxValue, goLookup]
    · exact ih _ k v hnd.2 hrest

/-- C8: each context pair is merged into args under `context_<key>`
(original non-context-prefixed argument keys untouched) and injected into
the Go context under the bare key, so both `GetContextString` and
`GetContextFromContext` recover a string value. -/
theorem c8_context_merged_and_injected
    (argsMap contextData : List (String × GoVal)) (key s : String)
    (hnd : (contextData.map Prod.fst).Nodup)
    (hmem : (key, .vStr s) ∈ contextData) :
    goLookup (mergeContextIntoArgs argsMap contextData)
        ("context_" ++ key) = some (.vStr s) ∧
    (∀ k, (∀ c ∈ contextData.map Prod.fst, ("context_" ++ c) ≠ k) →
      goLookup (mergeContextIntoArgs argsMap contextData) k =
        goLookup argsMap k) ∧
    GetContextString (mergeContextIntoArgs argsMap contextData) key [] =
      s ∧
    GetContextFromContext (injectContext [] contextData) key [] = s := by
  have h1 := merge_lookup_of_mem contextData argsMap key (.vStr s) hnd hmem
  have h4 := inject_lookup_of_mem contextData [] key (.vStr s) hnd hmem
  refine ⟨h1, fun k hk => merge_lookup_unprefixed contextData argsMap k hk,
    ?_, ?_⟩
  · simp [GetContextString, h1]
  · simp [GetContextFromContext, h4]

/-- Witness for C8 at a concrete one-entry context. -/
theorem c8_context_merged_and_injected_witness :
    GetContextString
        (mergeContextIntoArgs [("a", .vInt 1)]
          [("plugin_id", .vStr "p1")]) "plugin_id" [] = "p1" ∧
    GetContextFromContext
        (injectContext [] [("plugin_id", .vStr "p1")]) "plugin_id" [] =
      "p1" := by
  have h := c8_context_merged_and_injected [("a", .vInt 1)]
    [("plugin_id", .vStr "p1")] "plugin_id" "p1" (by simp) (by simp)
  exact ⟨h.2.2.1, h.2.2.2⟩

end ApitoSDK
